/-
Verification of the foliage capture pipeline
(Source/aiden_geo_tutorial/Public/FoliageCaptureActor.h).

Shallow embedding conventions:
* UE `float`/`double` scalar fields are modelled as `Rat` (exact values with
  decidable equality, matching the source's direct `==` comparisons).
* `UStaticMesh*` pointers and `UFoliageHISM*` component handles are modelled by
  identity, as `Nat` ids.
* `uint32` hash arithmetic is `Nat` addition reduced `% 2^32`.
* The engine-supplied per-field `GetTypeHash` overloads are not part of this
  repository; they enter as an arbitrary record of hash functions `HashFns`,
  so every theorem about the hash holds for any choice of engine hash.
-/
import Mathlib

set_option maxHeartbeats 1000000

namespace FoliageCapture

/-- UE `FFloatInterval`: a Min/Max pair. -/
structure FFloatInterval where
  Min : Rat
  Max : Rat
  deriving DecidableEq, Repr

/-- `FFoliageGeometryType` (FoliageCaptureActor.h, lines 38-88): one placeable
object variant.  Field order and defaults follow the source. -/
structure FFoliageGeometryType where
  Density : Rat := 1/2
  bRandomYaw : Bool := false
  ZOffset : FFloatInterval := ⟨0, 0⟩
  Scale : FFloatInterval := ⟨1, 1⟩
  bAlignToNormal : Bool := false
  Mesh : Nat := 0
  bCollidesWithWorld : Bool := true
  CullingDistances : FFloatInterval := ⟨4096, 32768⟩
  bAffectsDistanceFieldLighting : Bool := false
  deriving DecidableEq, Repr

/-- The engine hash overloads used by `GetTypeHash(const FFoliageGeometryType&)`
are outside this repository; any functions may stand for them. -/
structure HashFns where
  hFloat : Rat → Nat
  hBool : Bool → Nat
  hInterval : FFloatInterval → Nat
  hMesh : Nat → Nat

/-- `GetTypeHash(const FFoliageGeometryType& A)` (lines 74-79): the sum of the
per-field hashes of Density, bRandomYaw, ZOffset, Scale, Mesh,
bCollidesWithWorld and bAffectsDistanceFieldLighting, as `uint32` arithmetic. -/
def GetTypeHashFGT (H : HashFns) (A : FFoliageGeometryType) : Nat :=
  (H.hFloat A.Density + H.hBool A.bRandomYaw + H.hInterval A.ZOffset +
    H.hInterval A.Scale + H.hMesh A.Mesh + H.hBool A.bCollidesWithWorld +
    H.hBool A.bAffectsDistanceFieldLighting) % 2 ^ 32

/-- `operator==(const FFoliageGeometryType&, const FFoliageGeometryType&)`
(lines 81-87), conjunct for conjunct in source order. -/
def beqFGT (A B : FFoliageGeometryType) : Bool :=
  A.Density == B.Density && A.Mesh == B.Mesh &&
    A.bCollidesWithWorld == B.bCollidesWithWorld &&
    A.bAffectsDistanceFieldLighting == B.bAffectsDistanceFieldLighting &&
    A.Scale.Max == B.Scale.Max && A.Scale.Min == B.Scale.Min &&
    A.bRandomYaw == B.bRandomYaw &&
    A.ZOffset.Min == B.ZOffset.Min && A.ZOffset.Max == B.ZOffset.Max

/-- The tuple of fields the spec says determine pooling identity: mesh,
density, collision flag, expensive-lighting flag, scale bounds, yaw flag,
offset bounds. -/
def poolKeyFields (A : FFoliageGeometryType) :
    Nat × Rat × Bool × Bool × (Rat × Rat) × Bool × (Rat × Rat) :=
  (A.Mesh, A.Density, A.bCollidesWithWorld, A.bAffectsDistanceFieldLighting,
    (A.Scale.Min, A.Scale.Max), A.bRandomYaw, (A.ZOffset.Min, A.ZOffset.Max))

/-- `UFoliageHISM*` pooled component handle: identity plus the observable
state the actor reads from it (`IsValid`, `GetInstanceCount`). -/
structure UFoliageHISM where
  id : Nat
  valid : Bool := true
  instances : Nat := 0
  deriving DecidableEq, Repr

/-- `TMap<FFoliageGeometryType, TArray<UFoliageHISM*>> HISMFoliageMap`
(line 213), as an association list keyed by `operator==`. -/
abbrev PoolMap : Type := List (FFoliageGeometryType × List UFoliageHISM)

/-- `TMap` lookup: the first entry whose key compares `==` to `k`. -/
def findPool (m : PoolMap) (k : FFoliageGeometryType) :
    Option (List UFoliageHISM) :=
  (m.find? (fun e => beqFGT e.1 k)).map (·.2)

theorem beqFGT_eq_true_iff (A B : FFoliageGeometryType) :
    beqFGT A B = true ↔ poolKeyFields A = poolKeyFields B := by
  simp only [beqFGT, poolKeyFields, Bool.and_eq_true, beq_iff_eq,
    Prod.mk.injEq]
  tauto

theorem beqFGT_congr_right (x A B : FFoliageGeometryType)
    (h : poolKeyFields A = poolKeyFields B) : beqFGT x A = beqFGT x B := by
  rcases hx : beqFGT x A with _ | _
  · rcases hy : beqFGT x B with _ | _
    · rfl
    · exact absurd ((beqFGT_eq_true_iff x A).mpr
        (((beqFGT_eq_true_iff x B).mp hy).trans h.symm)) (by simp [hx])
  · exact ((beqFGT_eq_true_iff x B).mpr
      (((beqFGT_eq_true_iff x A).mp hx).trans h)).symm

theorem findPool_congr (m : PoolMap) (A B : FFoliageGeometryType)
    (h : poolKeyFields A = poolKeyFields B) : findPool m A = findPool m B := by
  unfold findPool
  have : (fun e : FFoliageGeometryType × List UFoliageHISM => beqFGT e.1 A)
      = (fun e => beqFGT e.1 B) := by
    funext e
    exact beqFGT_congr_right e.1 A B h
  rw [this]

theorem hash_congr (H : HashFns) (A B : FFoliageGeometryType)
    (h : poolKeyFields A = poolKeyFields B) :
    GetTypeHashFGT H A = GetTypeHashFGT H B := by
  simp only [poolKeyFields, Prod.mk.injEq] at h
  obtain ⟨h1, h2, h3, h4, h5, h6, h7⟩ := h
  have hs : A.Scale = B.Scale := by
    cases hA : A.Scale
    cases hB : B.Scale
    simp_all
  have hz : A.ZOffset = B.ZOffset := by
    cases hA : A.ZOffset
    cases hB : B.ZOffset
    simp_all
  simp [GetTypeHashFGT, h1, h2, h3, h4, h6, hs, hz]

/-- C1: `FFoliageGeometryType` equality holds exactly when the listed fields
(mesh, density, collision flag, expensive-lighting flag, scale bounds, yaw
flag, offset bounds) agree; the hash and the pool-map lookup are functions of
those same fields, so field-equal values share one pool set. -/
theorem C1_geometry_identity (H : HashFns) (m : PoolMap)
    (A B : FFoliageGeometryType) :
    (beqFGT A B = true ↔ poolKeyFields A = poolKeyFields B) ∧
      (poolKeyFields A = poolKeyFields B →
        GetTypeHashFGT H A = GetTypeHashFGT H B ∧ findPool m A = findPool m B) :=
  ⟨beqFGT_eq_true_iff A B,
    fun h => ⟨hash_congr H A B h, findPool_congr m A B h⟩⟩

/-- Closed instance of C1 at a concrete pair differing only in ignored
fields, with a concrete hash-function record and pool map. -/
theorem C1_geometry_identity_witness :
    beqFGT { bAlignToNormal := true } { CullingDistances := ⟨1, 2⟩ } = true ∧
      GetTypeHashFGT ⟨fun q => q.den, fun b => cond b 1 0, fun i => i.Max.den,
          fun n => n⟩ { bAlignToNormal := true }
        = GetTypeHashFGT ⟨fun q => q.den, fun b => cond b 1 0, fun i => i.Max.den,
          fun n => n⟩ { CullingDistances := ⟨1, 2⟩ } ∧
      findPool [({ }, [⟨7, true, 3⟩])] { bAlignToNormal := true }
        = findPool [({ }, [⟨7, true, 3⟩])] { CullingDistances := ⟨1, 2⟩ } := by
  have h := C1_geometry_identity
    ⟨fun q => q.den, fun b => cond b 1 0, fun i => i.Max.den, fun n => n⟩
    [({ }, [⟨7, true, 3⟩])] { bAlignToNormal := true } { CullingDistances := ⟨1, 2⟩ }
  have hk : poolKeyFields ({ bAlignToNormal := true } : FFoliageGeometryType)
      = poolKeyFields { CullingDistances := ⟨1, 2⟩ } := by
    simp [poolKeyFields]
  exact ⟨h.1.mpr hk, (h.2 hk).1, (h.2 hk).2⟩

/-- C9: the hash is consistent with equality: `A == B` implies
`GetTypeHash(A) = GetTypeHash(B)`, for every engine hash-function record. -/
theorem C9_hash_consistent_with_eq (H : HashFns) (A B : FFoliageGeometryType)
    (h : beqFGT A B = true) : GetTypeHashFGT H A = GetTypeHashFGT H B :=
  hash_congr H A B ((beqFGT_eq_true_iff A B).mp h)

/-- Closed instance of C9 at concrete values. -/
theorem C9_hash_consistent_with_eq_witness :
    GetTypeHashFGT ⟨fun q => q.den + 1, fun b => cond b 2 5, fun i => i.Min.den,
        fun n => 3 * n⟩ { bAlignToNormal := true, CullingDistances := ⟨0, 1⟩ }
      = GetTypeHashFGT ⟨fun q => q.den + 1, fun b => cond b 2 5, fun i => i.Min.den,
        fun n => 3 * n⟩ { } :=
  C9_hash_consistent_with_eq
    ⟨fun q => q.den + 1, fun b => cond b 2 5, fun i => i.Min.den, fun n => 3 * n⟩
    { bAlignToNormal := true, CullingDistances := ⟨0, 1⟩ } { } (by simp [beqFGT])

/-- C10: equality and hash ignore `bAlignToNormal` and `CullingDistances`:
two values differing only there compare equal, hash identically, and share
one pool-map entry. -/
theorem C10_ignored_fields (H : HashFns) (m : PoolMap)
    (A : FFoliageGeometryType) (al : Bool) (cd : FFloatInterval) :
    beqFGT A { A with bAlignToNormal := al, CullingDistances := cd } = true ∧
      GetTypeHashFGT H A
        = GetTypeHashFGT H { A with bAlignToNormal := al, CullingDistances := cd } ∧
      findPool m A
        = findPool m { A with bAlignToNormal := al, CullingDistances := cd } := by
  have hk : poolKeyFields A
      = poolKeyFields { A with bAlignToNormal := al, CullingDistances := cd } := by
    simp [poolKeyFields]
  exact ⟨(beqFGT_eq_true_iff _ _).mpr hk, hash_congr H _ _ hk, findPool_congr m _ _ hk⟩

/-! ## Instance counting (`AFoliageCaptureActor::GetInstanceCount`, lines 263-280) -/

/-- `GetInstanceCount` body, translated loop for loop: accumulate `Count` and
`bAnyHISMValid` over every component of every pool, adding a component's
instance count only when it is valid; return `-1` when no component was
valid.  (The unused `float Delta` parameter is dropped.) -/
def GetInstanceCount (m : PoolMap) : Int :=
  let r := m.foldl
    (fun acc T => T.2.foldl
      (fun acc V => if V.valid then (acc.1 + (V.instances : Int), true) else acc)
      acc)
    ((0 : Int), false)
  if r.2 then r.1 else -1

/-- Spec-side reading of the claim: the sum of live instance counts, each
invalid component contributing zero. -/
def specLiveSum (m : PoolMap) : Int :=
  (m.map (fun T =>
    (T.2.map (fun V => if V.valid then (V.instances : Int) else 0)).sum)).sum

/-- Spec-side reading of the claim: some pool currently holds a valid
component (a valid count is available at all). -/
def specAnyValid (m : PoolMap) : Bool :=
  m.any (fun T => T.2.any (·.valid))

theorem innerFold_spec (vs : List UFoliageHISM) (acc : Int × Bool) :
    vs.foldl
        (fun acc V => if V.valid then (acc.1 + (V.instances : Int), true) else acc)
        acc
      = (acc.1 + (vs.map (fun V => if V.valid then (V.instances : Int) else 0)).sum,
          acc.2 || vs.any (·.valid)) := by
  induction vs generalizing acc with
  | nil => simp
  | cons v vs ih =>
    rcases hv : v.valid with _ | _ <;>
      simp [List.foldl_cons, hv, ih, add_assoc]

theorem outerFold_spec (m : PoolMap) (acc : Int × Bool) :
    m.foldl
        (fun acc T => T.2.foldl
          (fun acc V => if V.valid then (acc.1 + (V.instances : Int), true) else acc)
          acc)
        acc
      = (acc.1 + specLiveSum m, acc.2 || specAnyValid m) := by
  induction m generalizing acc with
  | nil => simp [specLiveSum, specAnyValid]
  | cons T m ih =>
    rw [List.foldl_cons, innerFold_spec, ih]
    simp [specLiveSum, specAnyValid, add_assoc, Bool.or_assoc]

/-- C2: `GetInstanceCount` returns the sum of live instance counts across all
pools — invalid components contributing zero — when any pool currently holds
a valid component, and the sentinel `-1` when none does; in every state the
result is that sum or the sentinel. -/
theorem C2_instance_count (m : PoolMap) :
    GetInstanceCount m = (if specAnyValid m then specLiveSum m else -1) ∧
      (GetInstanceCount m = specLiveSum m ∨ GetInstanceCount m = -1) := by
  have h : GetInstanceCount m = (if specAnyValid m then specLiveSum m else -1) := by
    unfold GetInstanceCount
    rw [outerFold_spec]
    simp
  exact ⟨h, by rcases hv : specAnyValid m <;> simp [h, hv]⟩

/-! ## Orchestrator state machine (`AFoliageCaptureActor`) -/

/-- UE `FLinearColor`. -/
structure FLinearColor where
  R : Rat
  G : Rat
  B : Rat
  A : Rat
  deriving DecidableEq, Repr

/-- `FFoliageClassificationType` (lines 93-113): a named classification
category owning geometry types.  The `Type` field is `TypeName` here
(`Type` is reserved in Lean). -/
structure FFoliageClassificationType where
  TypeName : String := ""
  ColourClassification : FLinearColor := ⟨0, 0, 0, 1⟩
  FoliageTypes : List FFoliageGeometryType := []
  bAlignToSurfaceWithRaycast : Bool := false
  PooledHISMsToCreatePerFoliageType : Nat := 4
  deriving DecidableEq, Repr

/-- `AFoliageCaptureActor` state visible to the claims: the configuration
`FoliageTypes` (line 140), the busy flag `bIsBuilding` (line 251), the tick
counter `Ticks` (line 256), and the pool map `HISMFoliageMap` (line 213).
`NextComponentId` is the model's allocator of fresh component handles and
`ReadbackRequests` counts readback requests issued, so that "no second
request" is observable. -/
structure AFoliageCaptureActor where
  FoliageTypes : List FFoliageClassificationType := []
  bIsBuilding : Bool := false
  Ticks : Int := 0
  HISMFoliageMap : PoolMap := []
  NextComponentId : Nat := 0
  ReadbackRequests : Nat := 0
  deriving DecidableEq, Repr

/-- `IsBuilding()` (line 200): reports the busy flag. -/
def IsBuilding (a : AFoliageCaptureActor) : Bool :=
  a.bIsBuilding

/-- Modelled from the spec: the body of
`AFoliageCaptureActor::BuildFoliageTransforms` is not in the repository (the
header declares it at lines 181-183).  Spec §4.6/§6: while the busy flag is
already set the call is rejected as a no-op; otherwise it sets the busy flag
and issues one readback request, returning immediately. -/
def BuildFoliageTransforms (a : AFoliageCaptureActor) : AFoliageCaptureActor :=
  if a.bIsBuilding then a
  else { a with bIsBuilding := true, ReadbackRequests := a.ReadbackRequests + 1 }

/-- Modelled from the spec: the readback-completion handling of
`BuildFoliageTransforms` is not in the repository.  Spec §4.6/§7: on failure
(`bSuccess = false`) the build aborts — the busy flag is cleared and no pool
is touched; on success later stages run, and per §5 the callback itself does
not write pools. -/
def OnRenderTargetRead (a : AFoliageCaptureActor) (bSuccess : Bool) :
    AFoliageCaptureActor :=
  if bSuccess then a
  else { a with bIsBuilding := false }

/-- C3: while `IsBuilding()` is true, `BuildFoliageTransforms` has no effect:
no readback request is issued and the whole actor state (busy flag, tick
counter, pool map) is unchanged. -/
theorem C3_reject_while_busy (a : AFoliageCaptureActor)
    (h : IsBuilding a = true) : BuildFoliageTransforms a = a := by
  simp [BuildFoliageTransforms, IsBuilding] at *
  simp [h]

/-- Closed instance of C3 at a concrete busy state. -/
theorem C3_reject_while_busy_witness :
    BuildFoliageTransforms
        { bIsBuilding := true, Ticks := 5,
          HISMFoliageMap := [({ }, [⟨0, true, 9⟩])], ReadbackRequests := 1 }
      = { bIsBuilding := true, Ticks := 5,
          HISMFoliageMap := [({ }, [⟨0, true, 9⟩])], ReadbackRequests := 1 } :=
  C3_reject_while_busy
    { bIsBuilding := true, Ticks := 5,
      HISMFoliageMap := [({ }, [⟨0, true, 9⟩])], ReadbackRequests := 1 } rfl

/-- C4: a build whose readback reports failure aborts atomically: the busy
flag returns to false, the pool map is exactly what it was before the build
call, and `GetInstanceCount` is unchanged. -/
theorem C4_readback_failure_aborts (a : AFoliageCaptureActor) :
    IsBuilding (OnRenderTargetRead (BuildFoliageTransforms a) false) = false ∧
      (OnRenderTargetRead (BuildFoliageTransforms a) false).HISMFoliageMap
        = a.HISMFoliageMap ∧
      GetInstanceCount
          (OnRenderTargetRead (BuildFoliageTransforms a) false).HISMFoliageMap
        = GetInstanceCount a.HISMFoliageMap := by
  rcases hb : a.bIsBuilding with _ | _ <;>
    simp [BuildFoliageTransforms, OnRenderTargetRead, IsBuilding, hb]

/-! ## Readback service (`ReadLinearColorPixelsAsync`, lines 238-246) -/

/-- Observable events of one readback request. -/
inductive ReadbackEvent
  | CopyAttempted
  | CallbackInvoked (bSuccess : Bool)
  deriving DecidableEq, Repr

/-- Modelled from the spec: the body of `ReadLinearColorPixelsAsync` is not
in the repository (declared at lines 238-246).  Spec §4.2: the request copies
pixel data off the rendering path and then invokes the completion delegate
`FOnRenderTargetRead` exactly once, passing a success flag; failure is
signalled through that flag rather than by throwing.  `bCopyOk` is the
outcome of the copy. -/
def ReadLinearColorPixelsAsync (bCopyOk : Bool) : List ReadbackEvent :=
  [ReadbackEvent.CopyAttempted, ReadbackEvent.CallbackInvoked bCopyOk]

/-- The success flags of the callback invocations in an event trace. -/
def callbackCalls (trace : List ReadbackEvent) : List Bool :=
  trace.filterMap fun e =>
    match e with
    | ReadbackEvent.CallbackInvoked b => some b
    | ReadbackEvent.CopyAttempted => none

/-- C8: every readback request invokes the completion callback exactly once —
never zero times, never twice — and on failure the callback still fires, with
`false` as its boolean parameter. -/
theorem C8_callback_exactly_once (bCopyOk : Bool) :
    (callbackCalls (ReadLinearColorPixelsAsync bCopyOk)).length = 1 ∧
      callbackCalls (ReadLinearColorPixelsAsync bCopyOk) = [bCopyOk] := by
  simp [callbackCalls, ReadLinearColorPixelsAsync]

/-! ## Coordinate mapper (`PixelToGeographicLocation` /
`GeographicToPixelLocation`, lines 224-233, and `GetHeightFromDepth`,
lines 215-221) -/

/-- The `glm::dvec4 GeographicExtents` argument: the geographic rectangle
covered by the render target. -/
structure GeographicExtents where
  MinLongitude : Rat
  MinLatitude : Rat
  MaxLongitude : Rat
  MaxLatitude : Rat
  deriving DecidableEq, Repr

/-- Modelled from the spec: the body of `PixelToGeographicLocation` is not in
the repository (declared at lines 227-228).  Spec §4.1 `pixelToWorld`: an
affine mapping from the normalized pixel fraction to the coordinate range,
with the altitude supplied separately and passed through.  The render target
argument contributes its pixel dimensions `SizeX × SizeY`. -/
def PixelToGeographicLocation (X Y Altitude : Rat) (SizeX SizeY : Nat)
    (E : GeographicExtents) : Rat × Rat × Rat :=
  (E.MinLongitude + X / (SizeX : Rat) * (E.MaxLongitude - E.MinLongitude),
    E.MinLatitude + Y / (SizeY : Rat) * (E.MaxLatitude - E.MinLatitude),
    Altitude)

/-- Modelled from the spec: the body of `GeographicToPixelLocation` is not in
the repository (declared at lines 232-233).  Spec §4.1 `worldToPixel`: the
inverse affine mapping, rounded to an integer pixel (`FIntPoint`). -/
def GeographicToPixelLocation (Longitude Latitude : Rat) (SizeX SizeY : Nat)
    (E : GeographicExtents) : Int × Int :=
  (round ((Longitude - E.MinLongitude) / (E.MaxLongitude - E.MinLongitude)
      * (SizeX : Rat)),
    round ((Latitude - E.MinLatitude) / (E.MaxLatitude - E.MinLatitude)
      * (SizeY : Rat)))

/-- C5: for every in-bounds pixel `(Px, Py)`, every altitude and every
non-degenerate extents, converting pixel to geographic coordinates and back
reconstructs the pixel exactly (so certainly within one pixel), for every
altitude. -/
theorem C5_pixel_roundtrip (Px Py : Int) (Altitude : Rat) (SizeX SizeY : Nat)
    (E : GeographicExtents) (hX : 0 < SizeX) (hY : 0 < SizeY)
    (hLon : E.MinLongitude < E.MaxLongitude)
    (hLat : E.MinLatitude < E.MaxLatitude)
    (hPx : 0 ≤ Px ∧ Px ≤ (SizeX : Int)) (hPy : 0 ≤ Py ∧ Py ≤ (SizeY : Int)) :
    GeographicToPixelLocation
        (PixelToGeographicLocation (Px : Rat) (Py : Rat) Altitude SizeX SizeY E).1
        (PixelToGeographicLocation (Px : Rat) (Py : Rat) Altitude SizeX SizeY E).2.1
        SizeX SizeY E
      = (Px, Py) := by
  have hSX : ((SizeX : Rat)) ≠ 0 := by
    exact_mod_cast Nat.pos_iff_ne_zero.mp hX
  have hSY : ((SizeY : Rat)) ≠ 0 := by
    exact_mod_cast Nat.pos_iff_ne_zero.mp hY
  have hdLon : E.MaxLongitude - E.MinLongitude ≠ 0 := sub_ne_zero.mpr hLon.ne'
  have hdLat : E.MaxLatitude - E.MinLatitude ≠ 0 := sub_ne_zero.mpr hLat.ne'
  unfold GeographicToPixelLocation PixelToGeographicLocation
  have h1 : (E.MinLongitude + (Px : Rat) / (SizeX : Rat)
        * (E.MaxLongitude - E.MinLongitude) - E.MinLongitude)
      / (E.MaxLongitude - E.MinLongitude) * (SizeX : Rat) = (Px : Rat) := by
    field_simp
    ring
  have h2 : (E.MinLatitude + (Py : Rat) / (SizeY : Rat)
        * (E.MaxLatitude - E.MinLatitude) - E.MinLatitude)
      / (E.MaxLatitude - E.MinLatitude) * (SizeY : Rat) = (Py : Rat) := by
    field_simp
    ring
  simp only [h1, h2, round_intCast, Prod.mk.injEq]

/-- Closed instance of C5: pixel (3, 2) in a 10 × 8 buffer over the unit
degree square at altitude 7 round-trips exactly. -/
theorem C5_pixel_roundtrip_witness :
    GeographicToPixelLocation
        (PixelToGeographicLocation (3 : Rat) (2 : Rat) 7 10 8 ⟨0, 0, 1, 1⟩).1
        (PixelToGeographicLocation (3 : Rat) (2 : Rat) 7 10 8 ⟨0, 0, 1, 1⟩).2.1
        10 8 ⟨0, 0, 1, 1⟩
      = (3, 2) :=
  C5_pixel_roundtrip 3 2 7 10 8 ⟨0, 0, 1, 1⟩ (by norm_num) (by norm_num)
    (by norm_num) (by norm_num) (by norm_num) (by norm_num)

/-- The decode constants of `GetHeightFromDepth`: spec §4.1 says the
scale/inversion constants are configuration.  `DepthScale` is the small
positive multiplier applied at encode time to keep the depth in [0, 1];
`HeightBias` re-projects the unscaled value to a signed height in metres. -/
structure DepthDecodeConfig where
  DepthScale : Rat
  HeightBias : Rat
  deriving DecidableEq, Repr

/-- Modelled from the spec: the body of `GetHeightFromDepth` is not in the
repository (declared at line 221).  Spec §4.1 `decodeHeight`: invert the
encode scale (divide the stored value by the small multiplier) and
re-project to a signed height in metres. -/
def GetHeightFromDepth (cfg : DepthDecodeConfig) (Value : Rat) : Rat :=
  Value / cfg.DepthScale + cfg.HeightBias

/-- C6: the depth decode is monotonically non-decreasing on [0, 1]: for
encoded values `a < b`, `decodeHeight a ≤ decodeHeight b` (given the positive
encode scale). -/
theorem C6_depth_decode_monotone (cfg : DepthDecodeConfig) (a b : Rat)
    (hscale : 0 < cfg.DepthScale) (ha : 0 ≤ a) (hb : b ≤ 1) (hab : a < b) :
    GetHeightFromDepth cfg a ≤ GetHeightFromDepth cfg b := by
  unfold GetHeightFromDepth
  have : a / cfg.DepthScale ≤ b / cfg.DepthScale := by
    apply div_le_div_of_nonneg_right hab.le hscale.le
  linarith

/-- Closed instance of C6: with scale 1/1000 and bias -100, decoding 0 and 1
respects the order. -/
theorem C6_depth_decode_monotone_witness :
    GetHeightFromDepth ⟨1 / 1000, -100⟩ 0 ≤ GetHeightFromDepth ⟨1 / 1000, -100⟩ 1 :=
  C6_depth_decode_monotone ⟨1 / 1000, -100⟩ 0 1 (by norm_num) (by norm_num)
    (by norm_num) (by norm_num)

/-! ## Pool (re)initialization (`ResetAndCreateHISMComponents`, lines 185-188) -/

/-- Fresh pooled components with ids `nid, nid+1, …, nid+n-1`. -/
def freshHISMs (nid n : Nat) : List UFoliageHISM :=
  (List.range n).map fun i => { id := nid + i, valid := true, instances := 0 }

/-- `TMap` value replacement: set the value of the (first) entry whose key
compares `==` to `k`. -/
def updatePool : PoolMap → FFoliageGeometryType → List UFoliageHISM → PoolMap
  | [], _, _ => []
  | e :: es, k, v =>
    if beqFGT e.1 k then (e.1, v) :: es else e :: updatePool es k v

/-- One geometry type's pool is brought up to its configured size: keep an
existing pool that is already large enough, top an undersized one up with
fresh components, create a missing one. -/
def ensurePoolStep : PoolMap × Nat → FFoliageGeometryType × Nat → PoolMap × Nat
  | (m, nid), (k, n) =>
    match findPool m k with
    | some comps =>
      if n ≤ comps.length then (m, nid)
      else (updatePool m k (comps ++ freshHISMs nid (n - comps.length)),
        nid + (n - comps.length))
    | none => (m ++ [(k, freshHISMs nid n)], nid + n)

/-- Every geometry type referenced by the category list, paired with its
category's pool-size hint. -/
def geometryHintPairs (cats : List FFoliageClassificationType) :
    List (FFoliageGeometryType × Nat) :=
  cats.bind fun c =>
    c.FoliageTypes.map fun g => (g, c.PooledHISMsToCreatePerFoliageType)

/-- Modelled from the spec: the body of
`AFoliageCaptureActor::ResetAndCreateHISMComponents` is not in the repository
(declared at line 188).  Spec §4.5 `resetPools`: for every geometry type
referenced by the configured categories, ensure a pool exists with at least
`PooledHISMsToCreatePerFoliageType` components; destroy pools for geometry
types no longer referenced. -/
def ResetAndCreateHISMComponents (a : AFoliageCaptureActor) :
    AFoliageCaptureActor :=
  let pairs := geometryHintPairs a.FoliageTypes
  let kept := a.HISMFoliageMap.filter fun e => pairs.any fun p => beqFGT p.1 e.1
  let r := pairs.foldl ensurePoolStep (kept, a.NextComponentId)
  { a with HISMFoliageMap := r.1, NextComponentId := r.2 }

theorem beqFGT_refl (A : FFoliageGeometryType) : beqFGT A A = true :=
  (beqFGT_eq_true_iff A A).mpr rfl

theorem findPool_cons (e : FFoliageGeometryType × List UFoliageHISM)
    (es : PoolMap) (k : FFoliageGeometryType) :
    findPool (e :: es) k
      = if beqFGT e.1 k then some e.2 else findPool es k := by
  rcases hb : beqFGT e.1 k with _ | _ <;> simp [findPool, List.find?_cons, hb]

theorem findPool_append_of_none (m : PoolMap) (k : FFoliageGeometryType)
    (v : List UFoliageHISM) (h : findPool m k = none) :
    findPool (m ++ [(k, v)]) k = some v := by
  induction m with
  | nil => simp [findPool, List.find?, beqFGT_refl]
  | cons e es ih =>
    rw [findPool_cons] at h
    rcases hb : beqFGT e.1 k with _ | _
    · simp only [hb, if_neg Bool.false_ne_true] at h
      simpa [List.cons_append, findPool_cons, hb] using ih h
    · simp [hb] at h

theorem findPool_append_of_some (m : PoolMap) (k k' : FFoliageGeometryType)
    (v c : List UFoliageHISM) (h : findPool m k' = some c) :
    findPool (m ++ [(k, v)]) k' = some c := by
  induction m with
  | nil => simp [findPool] at h
  | cons e es ih =>
    rw [findPool_cons] at h
    rcases hb : beqFGT e.1 k' with _ | _
    · simp only [hb, if_neg Bool.false_ne_true] at h
      simpa [List.cons_append, findPool_cons, hb] using ih h
    · simp [hb] at h
      simp [List.cons_append, findPool_cons, hb, h]

theorem findPool_updatePool_self (m : PoolMap) (k : FFoliageGeometryType)
    (v c : List UFoliageHISM) (h : findPool m k = some c) :
    findPool (updatePool m k v) k = some v := by
  induction m with
  | nil => simp [findPool] at h
  | cons e es ih =>
    rw [findPool_cons] at h
    rcases hb : beqFGT e.1 k with _ | _
    · simp only [hb, if_neg Bool.false_ne_true] at h
      simpa [updatePool, hb, findPool_cons] using ih h
    · simp [updatePool, hb, findPool_cons]

theorem findPool_updatePool_extend (m : PoolMap) (k : FFoliageGeometryType)
    (comps add : List UFoliageHISM) (hk : findPool m k = some comps)
    (k' : FFoliageGeometryType) (c' : List UFoliageHISM)
    (h : findPool m k' = some c') :
    ∃ c'', findPool (updatePool m k (comps ++ add)) k' = some c''
      ∧ c'.length ≤ c''.length := by
  induction m with
  | nil => simp [findPool] at h
  | cons e es ih =>
    rw [findPool_cons] at h hk
    rcases hb : beqFGT e.1 k with _ | _
    · simp only [hb, if_neg Bool.false_ne_true] at hk
      rcases hb' : beqFGT e.1 k' with _ | _
      · simp only [hb', if_neg Bool.false_ne_true] at h
        obtain ⟨c'', hc'', hlen⟩ := ih hk h
        exact ⟨c'', by simpa [updatePool, hb, findPool_cons, hb'] using hc'', hlen⟩
      · simp [hb'] at h
        exact ⟨c', by simp [updatePool, hb, findPool_cons, hb', h], le_refl _⟩
    · simp [hb] at hk
      rcases hb' : beqFGT e.1 k' with _ | _
      · simp only [hb', if_neg Bool.false_ne_true] at h
        exact ⟨c', by simp [updatePool, hb, findPool_cons, hb', h], le_refl _⟩
      · simp [hb'] at h
        refine ⟨comps ++ add, by simp [updatePool, hb, findPool_cons, hb'], ?_⟩
        simp [← h, ← hk]

theorem freshHISMs_length (nid n : Nat) : (freshHISMs nid n).length = n := by
  simp [freshHISMs]

theorem ensureStep_mono (p : FFoliageGeometryType × Nat) (m : PoolMap)
    (nid : Nat) (k' : FFoliageGeometryType) (c' : List UFoliageHISM)
    (h : findPool m k' = some c') :
    ∃ c'', findPool (ensurePoolStep (m, nid) p).1 k' = some c''
      ∧ c'.length ≤ c''.length := by
  rcases p with ⟨k, n⟩
  rcases hfind : findPool m k with _ | comps
  · exact ⟨c', by simp [ensurePoolStep, hfind, findPool_append_of_some m k k' _ c' h],
      le_refl _⟩
  · rcases hle : decide (n ≤ comps.length) with _ | _
    · have hgt : ¬ n ≤ comps.length := of_decide_eq_false hle
      obtain ⟨c'', hc'', hlen⟩ :=
        findPool_updatePool_extend m k comps (freshHISMs nid (n - comps.length))
          hfind k' c' h
      exact ⟨c'', by simp [ensurePoolStep, hfind, hgt, hc''], hlen⟩
    · have hle' : n ≤ comps.length := of_decide_eq_true hle
      exact ⟨c', by simp [ensurePoolStep, hfind, hle', h], le_refl _⟩

theorem ensureStep_ensures (m : PoolMap) (nid : Nat)
    (k : FFoliageGeometryType) (n : Nat) :
    ∃ c, findPool (ensurePoolStep (m, nid) (k, n)).1 k = some c
      ∧ n ≤ c.length := by
  rcases hfind : findPool m k with _ | comps
  · refine ⟨freshHISMs nid n, ?_, by simp [freshHISMs_length]⟩
    simp [ensurePoolStep, hfind, findPool_append_of_none m k _ hfind]
  · rcases hle : decide (n ≤ comps.length) with _ | _
    · have hgt : ¬ n ≤ comps.length := of_decide_eq_false hle
      refine ⟨comps ++ freshHISMs nid (n - comps.length), ?_, ?_⟩
      · simp [ensurePoolStep, hfind, hgt,
          findPool_updatePool_self m k _ comps hfind]
      · simp only [List.length_append, freshHISMs_length]
        omega
    · have hle' : n ≤ comps.length := of_decide_eq_true hle
      exact ⟨comps, by simp [ensurePoolStep, hfind, hle'], hle'⟩

theorem foldl_ensure_mono (l : List (FFoliageGeometryType × Nat))
    (m : PoolMap) (nid : Nat) (k' : FFoliageGeometryType)
    (c' : List UFoliageHISM) (h : findPool m k' = some c') :
    ∃ c'', findPool (l.foldl ensurePoolStep (m, nid)).1 k' = some c''
      ∧ c'.length ≤ c''.length := by
  induction l generalizing m nid c' with
  | nil => exact ⟨c', h, le_refl _⟩
  | cons p l ih =>
    obtain ⟨c₂, hc₂, hlen₂⟩ := ensureStep_mono p m nid k' c' h
    rw [List.foldl_cons]
    rcases hE : ensurePoolStep (m, nid) p with ⟨m₂, nid₂⟩
    rw [hE] at hc₂
    obtain ⟨c₃, hc₃, hlen₃⟩ := ih m₂ nid₂ c₂ hc₂
    exact ⟨c₃, hc₃, hlen₂.trans hlen₃⟩

theorem foldl_ensure_ensures (l : List (FFoliageGeometryType × Nat))
    (m : PoolMap) (nid : Nat) (p : FFoliageGeometryType × Nat) (hp : p ∈ l) :
    ∃ c, findPool (l.foldl ensurePoolStep (m, nid)).1 p.1 = some c
      ∧ p.2 ≤ c.length := by
  induction l generalizing m nid with
  | nil => cases hp
  | cons q l ih =>
    rw [List.foldl_cons]
    rcases hE : ensurePoolStep (m, nid) q with ⟨m₂, nid₂⟩
    rcases List.mem_cons.mp hp with hq | hq
    · subst hq
      obtain ⟨c₂, hc₂, hlen₂⟩ := ensureStep_ensures m nid p.1 p.2
      rw [hE] at hc₂
      obtain ⟨c₃, hc₃, hlen₃⟩ := foldl_ensure_mono l m₂ nid₂ p.1 c₂ hc₂
      exact ⟨c₃, hc₃, hlen₂.trans hlen₃⟩
    · exact ih m₂ nid₂ hq

theorem foldl_ensure_noop (l : List (FFoliageGeometryType × Nat))
    (m : PoolMap) (nid : Nat)
    (h : ∀ p ∈ l, ∃ c, findPool m p.1 = some c ∧ p.2 ≤ c.length) :
    l.foldl ensurePoolStep (m, nid) = (m, nid) := by
  induction l with
  | nil => rfl
  | cons p l ih =>
    obtain ⟨c, hc, hlen⟩ := h p (List.mem_cons_self p l)
    have hstep : ensurePoolStep (m, nid) p = (m, nid) := by
      rcases p with ⟨k, n⟩
      simp [ensurePoolStep, hc, hlen]
    rw [List.foldl_cons, hstep]
    exact ih fun q hq => h q (List.mem_cons_of_mem p hq)

theorem updatePool_keys (m : PoolMap) (k : FFoliageGeometryType)
    (v : List UFoliageHISM) (e' : FFoliageGeometryType × List UFoliageHISM)
    (h : e' ∈ updatePool m k v) : ∃ e ∈ m, e'.1 = e.1 := by
  induction m with
  | nil => cases h
  | cons e es ih =>
    rcases hb : beqFGT e.1 k with _ | _
    · simp only [updatePool, hb, if_neg Bool.false_ne_true, List.mem_cons] at h
      cases h with
      | inl h => exact ⟨e, List.mem_cons_self e es, by rw [h]⟩
      | inr h =>
        obtain ⟨e₀, he₀, heq⟩ := ih h
        exact ⟨e₀, List.mem_cons_of_mem e he₀, heq⟩
    · simp only [updatePool, hb, if_true, List.mem_cons] at h
      cases h with
      | inl h => exact ⟨e, List.mem_cons_self e es, by rw [h]⟩
      | inr h => exact ⟨e', List.mem_cons_of_mem e h, rfl⟩

theorem ensureStep_refd (pairs : List (FFoliageGeometryType × Nat))
    (p : FFoliageGeometryType × Nat) (hp : p ∈ pairs) (m : PoolMap) (nid : Nat)
    (hm : ∀ e ∈ m, (pairs.any fun q => beqFGT q.1 e.1) = true) :
    ∀ e ∈ (ensurePoolStep (m, nid) p).1,
      (pairs.any fun q => beqFGT q.1 e.1) = true := by
  rcases p with ⟨k, n⟩
  intro e he
  rcases hfind : findPool m k with _ | comps
  · simp only [ensurePoolStep, hfind, List.mem_append, List.mem_singleton] at he
    rcases he with he | he
    · exact hm e he
    · subst he
      exact List.any_eq_true.mpr ⟨(k, n), hp, beqFGT_refl k⟩
  · rcases hle : decide (n ≤ comps.length) with _ | _
    · have hgt : ¬ n ≤ comps.length := of_decide_eq_false hle
      simp only [ensurePoolStep, hfind, hgt, if_neg, not_false_iff] at he
      obtain ⟨e₀, he₀, heq⟩ := updatePool_keys m k _ e he
      rw [heq]
      exact hm e₀ he₀
    · have hle' : n ≤ comps.length := of_decide_eq_true hle
      simp only [ensurePoolStep, hfind, hle', if_pos] at he
      exact hm e he

theorem foldl_ensure_refd (pairs l : List (FFoliageGeometryType × Nat))
    (hl : ∀ p ∈ l, p ∈ pairs) (m : PoolMap) (nid : Nat)
    (hm : ∀ e ∈ m, (pairs.any fun q => beqFGT q.1 e.1) = true) :
    ∀ e ∈ (l.foldl ensurePoolStep (m, nid)).1,
      (pairs.any fun q => beqFGT q.1 e.1) = true := by
  induction l generalizing m nid with
  | nil => exact hm
  | cons p l ih =>
    intro e he
    rw [List.foldl_cons] at he
    rcases hE : ensurePoolStep (m, nid) p with ⟨m₂, nid₂⟩
    rw [hE] at he
    have hm₂ : ∀ e ∈ m₂, (pairs.any fun q => beqFGT q.1 e.1) = true := by
      intro e₂ he₂
      have := ensureStep_refd pairs p (hl p (List.mem_cons_self p l)) m nid hm e₂
      rw [hE] at this
      exact this he₂
    exact ih (fun q hq => hl q (List.mem_cons_of_mem p hq)) m₂ nid₂ hm₂ e he

/-- C7: `ResetAndCreateHISMComponents` is idempotent: for every actor state
(hence every category configuration), running it a second time yields exactly
the same pool map, the same geometry-type-to-pool mapping, and no other state
change. -/
theorem C7_reset_idempotent (a : AFoliageCaptureActor) :
    ResetAndCreateHISMComponents (ResetAndCreateHISMComponents a)
      = ResetAndCreateHISMComponents a := by
  simp only [ResetAndCreateHISMComponents]
  rcases hR : (geometryHintPairs a.FoliageTypes).foldl ensurePoolStep
      (a.HISMFoliageMap.filter
        (fun e => (geometryHintPairs a.FoliageTypes).any fun p => beqFGT p.1 e.1),
        a.NextComponentId) with ⟨m₁, n₁⟩
  have hrefd : ∀ e ∈ m₁,
      ((geometryHintPairs a.FoliageTypes).any fun q => beqFGT q.1 e.1) = true := by
    have := foldl_ensure_refd (geometryHintPairs a.FoliageTypes)
      (geometryHintPairs a.FoliageTypes) (fun p hp => hp)
      (a.HISMFoliageMap.filter
        (fun e => (geometryHintPairs a.FoliageTypes).any fun p => beqFGT p.1 e.1))
      a.NextComponentId
      (fun e he => (List.mem_filter.mp he).2)
    rw [hR] at this
    exact this
  have hfilter : m₁.filter
      (fun e => (geometryHintPairs a.FoliageTypes).any fun p => beqFGT p.1 e.1)
        = m₁ :=
    List.filter_eq_self.mpr hrefd
  have hens : ∀ p ∈ geometryHintPairs a.FoliageTypes,
      ∃ c, findPool m₁ p.1 = some c ∧ p.2 ≤ c.length := by
    intro p hp
    have := foldl_ensure_ensures (geometryHintPairs a.FoliageTypes)
      (a.HISMFoliageMap.filter
        (fun e => (geometryHintPairs a.FoliageTypes).any fun p => beqFGT p.1 e.1))
      a.NextComponentId p hp
    rw [hR] at this
    exact this
  have hnoop : (geometryHintPairs a.FoliageTypes).foldl ensurePoolStep (m₁, n₁)
      = (m₁, n₁) :=
    foldl_ensure_noop (geometryHintPairs a.FoliageTypes) m₁ n₁ hens
  simp [hR, hfilter, hnoop]

end FoliageCapture
